import Mathlib

/-!
Shallow embedding of `src/app/core/celery.py`: the asyncio-based background
task subsystem (`SimpleTaskManager`, `SimpleScheduler`) of the SpendyWise
backend.

Python `datetime` values are modelled as a millisecond count together with
their tz-awareness flag, because Python raises `TypeError` when an aware and
a naive datetime are compared or subtracted, and the source mixes
`datetime.now(timezone.utc)` (aware, used for task timestamps) with
`datetime.now()` (naive, used for the cleanup cutoff and the wait clock).
Python exceptions are modelled with `Except`; a callable together with its
bound `args`/`kwargs` is modelled by its invocation outcome (`WorkResult`).
-/

namespace SpendyWise

/-- The `TaskStatus` enum of the source. -/
inductive TaskStatus where
  | pending
  | running
  | completed
  | failed
  | cancelled
deriving DecidableEq, Repr

/-- Membership in the list `[COMPLETED, FAILED, CANCELLED]` used by
`wait_for_task`: the terminal statuses. -/
def isTerminal : TaskStatus → Bool
  | .completed => true
  | .failed => true
  | .cancelled => true
  | _ => false

/-- An opaque Python value (the return value of a task's function). -/
inductive PyValue where
  | pyNone
  | pyStr (s : String)
  | pyInt (n : Int)
deriving DecidableEq, Repr

/-- Outcome of invoking a task's `func(*args, **kwargs)`: either a normal
return value, or a raised exception carrying its `str(e)` description. -/
inductive WorkResult where
  | ok (v : PyValue)
  | err (msg : String)
deriving DecidableEq, Repr

/-- Python exceptions raised by the modelled code.  `fuelExhausted` is an
artifact of the model's finite clock stream for the polling loop of
`wait_for_task`; it is not a Python exception. -/
inductive PyError where
  | typeError
  | valueError (msg : String)
  | timeoutError (msg : String)
  | fuelExhausted
deriving DecidableEq, Repr

/-- A Python `datetime`: a value in milliseconds plus its tz-awareness flag. -/
structure PyDatetime where
  val : Nat
  aware : Bool
deriving DecidableEq, Repr

/-- Python `a < b` on datetimes: `TypeError` when awareness differs. -/
def dtLt (a b : PyDatetime) : Except PyError Bool :=
  if a.aware = b.aware then .ok (decide (a.val < b.val)) else .error .typeError

/-- Python `a >= b` on datetimes: `TypeError` when awareness differs. -/
def dtGe (a b : PyDatetime) : Except PyError Bool :=
  if a.aware = b.aware then .ok (decide (b.val ≤ a.val)) else .error .typeError

/-- Python `a - b` on datetimes, in milliseconds: `TypeError` when awareness
differs. -/
def dtSub (a b : PyDatetime) : Except PyError Int :=
  if a.aware = b.aware then .ok ((a.val : Int) - (b.val : Int)) else .error .typeError

/-- The `Task` dataclass.  The `func`, `args` and `kwargs` fields of the
source are folded into the single invocation outcome `func : WorkResult`.
`created_at` is set by `__post_init__` to `datetime.now(timezone.utc)`
(aware). -/
structure Task where
  id : String
  name : String
  func : WorkResult
  status : TaskStatus
  created_at : PyDatetime
  started_at : Option PyDatetime
  completed_at : Option PyDatetime
  result : Option PyValue
  error : Option String
deriving DecidableEq, Repr

/-- Python dict lookup `d.get(k)` over an insertion-ordered table. -/
def dictGet {α : Type} : List (String × α) → String → Option α
  | [], _ => none
  | (k', v) :: rest, k => if k' = k then some v else dictGet rest k

/-- Python dict update `d[k] = v`: replace the existing slot in place, else
append a new slot at the end. -/
def dictSet {α : Type} : List (String × α) → String → α → List (String × α)
  | [], k, v => [(k, v)]
  | (k', v') :: rest, k, v =>
      if k' = k then (k, v) :: rest else (k', v') :: dictSet rest k v

/-- Placeholder returned when a heap reference is out of range; never
reached from states built by the operations (every stored reference points
into the heap). -/
def defaultTask : Task :=
  { id := "", name := "", func := .ok .pyNone, status := .pending,
    created_at := { val := 0, aware := true }, started_at := none,
    completed_at := none, result := none, error := none }

/-- The state of a `SimpleTaskManager`.  `heap` models Python object
identity: `self.tasks` (the record table) and `self.queue` both reference
the same mutable `Task` objects, so both are represented as references into
`heap`. -/
structure SimpleTaskManager where
  max_workers : Nat
  heap : List Task
  tasks : List (String × Nat)
  queue : List Nat
  running : Bool
deriving DecidableEq, Repr

/-- Dereference a heap reference. -/
def heapGet (s : SimpleTaskManager) (r : Nat) : Task :=
  match s.heap[r]? with
  | some t => t
  | none => defaultTask

/-- The state of `SimpleTaskManager(max_workers=5)` before `start()` is called. -/
def initState : SimpleTaskManager :=
  { max_workers := 5, heap := [], tasks := [], queue := [], running := false }

/-- The PENDING `Task` created by `submit_task`: id is
`f"{name}_{int(datetime.now(timezone.utc).timestamp() * 1000)}"`, i.e. the
name plus the millisecond wall-clock timestamp; `created_at` is stamped
aware by `__post_init__`. -/
def newTask (name : String) (nowMs : Nat) (func : WorkResult) : Task :=
  { id := name ++ "_" ++ toString nowMs, name := name, func := func, status := .pending,
    created_at := { val := nowMs, aware := true }, started_at := none,
    completed_at := none, result := none, error := none }

/-- Model of `submit_task(name, func, *args, **kwargs)` at aware wall-clock time
`nowMs` (milliseconds, so `int(timestamp * 1000) = nowMs`).  The source
creates the PENDING record, stores it in `self.tasks`, then enqueues the
same object; it never consults `self.running` and raises nothing. -/
def submit_task (s : SimpleTaskManager) (nowMs : Nat) (name : String) (func : WorkResult) :
    String × SimpleTaskManager :=
  let task := newTask name nowMs func
  (task.id,
   { s with heap := s.heap ++ [task],
            tasks := dictSet s.tasks task.id s.heap.length,
            queue := s.queue ++ [s.heap.length] })

/-- Model of `get_task_status(task_id)`: `self.tasks.get(task_id)`. -/
def get_task_status (s : SimpleTaskManager) (task_id : String) : Option Task :=
  (dictGet s.tasks task_id).map (heapGet s)

/-- Model of `_execute_task(task)`: sets RUNNING and stamps `started_at` (aware time
`n1`), invokes the function, then on normal return stores `result`, sets
COMPLETED and stamps `completed_at` (aware time `n2`); on a raised
exception sets FAILED, stores `str(e)` in `error` and stamps
`completed_at`.  The `try/except Exception` makes this a total function:
no exception escapes the execution step. -/
def execute_task (t : Task) (n1 n2 : Nat) : Task :=
  let t1 := { t with status := TaskStatus.running,
                     started_at := some { val := n1, aware := true } }
  match t1.func with
  | .ok v =>
      { t1 with result := some v, status := TaskStatus.completed,
                completed_at := some { val := n2, aware := true } }
  | .err msg =>
      { t1 with status := TaskStatus.failed, error := some msg,
                completed_at := some { val := n2, aware := true } }

/-- One iteration of the `_worker` loop: if the queue is empty the 1s
`wait_for` times out and the state is unchanged; otherwise the front task
is dequeued and executed in place (the source performs no cancelled check
after dequeue). -/
def worker_step (s : SimpleTaskManager) (n1 n2 : Nat) : SimpleTaskManager :=
  match s.queue with
  | [] => s
  | r :: rest =>
      { s with heap := s.heap.set r (execute_task (heapGet s r) n1 n2),
               queue := rest }

/-- The removal condition of `cleanup_old_tasks`:
`(task.completed_at and task.completed_at < cutoff) or
 (task.created_at < cutoff and task.status == TaskStatus.FAILED)`,
with Python short-circuit evaluation and `TypeError` from any
mixed-awareness comparison. -/
def shouldRemove (t : Task) (cutoff : PyDatetime) : Except PyError Bool :=
  match t.completed_at with
  | some c => do
      let b ← dtLt c cutoff
      if b then pure true
      else do
        let b2 ← dtLt t.created_at cutoff
        pure (b2 && decide (t.status = TaskStatus.failed))
  | none => do
      let b2 ← dtLt t.created_at cutoff
      pure (b2 && decide (t.status = TaskStatus.failed))

/-- The `to_remove` accumulation loop of `cleanup_old_tasks`, iterating the
record table in insertion order; the first raising comparison aborts the
whole call. -/
def computeToRemove (s : SimpleTaskManager) :
    List (String × Nat) → PyDatetime → Except PyError (List String)
  | [], _ => .ok []
  | (task_id, r) :: rest, cutoff => do
      let b ← shouldRemove (heapGet s r) cutoff
      let tl ← computeToRemove s rest cutoff
      pure (if b then task_id :: tl else tl)

/-- Model of `cleanup_old_tasks(older_than_hours)` at naive wall-clock time `nowMs`:
`cutoff = datetime.now() - timedelta(hours=older_than_hours)` is naive
(3600000 ms per hour); the matching ids are then deleted from the table. -/
def cleanup_old_tasks (s : SimpleTaskManager) (nowMs older_than_hours : Nat) :
    Except PyError SimpleTaskManager :=
  match computeToRemove s s.tasks
      { val := nowMs - older_than_hours * 3600000, aware := false } with
  | .error e => .error e
  | .ok rem => .ok { s with tasks := s.tasks.filter (fun p => !(rem.contains p.1)) }

/-- The polling loop of `wait_for_task`.  `nows` is the stream of successive
`datetime.now()` readings (naive, milliseconds), one per iteration; the
status check runs before the timeout check, and `elapsed > timeout` raises
`TimeoutError`. -/
def waitLoop (s : SimpleTaskManager) (task_id : String) (timeoutMs : Nat)
    (start : PyDatetime) : List Nat → Except PyError Task
  | [] => .error .fuelExhausted
  | nowMs :: rest =>
      match get_task_status s task_id with
      | none => .error (.valueError ("Task " ++ task_id ++ " not found"))
      | some t =>
          if isTerminal t.status then .ok t
          else
            match dtSub { val := nowMs, aware := false } start with
            | .error e => .error e
            | .ok elapsed =>
                if (timeoutMs : Int) < elapsed then
                  .error (.timeoutError ("Task " ++ task_id ++ " timeout"))
                else waitLoop s task_id timeoutMs start rest

/-- Model of `wait_for_task(task_id, timeout)`: `start_time = datetime.now(timezone.utc)`
is aware (value `startMs`); each poll then reads the naive clock. -/
def wait_for_task (s : SimpleTaskManager) (task_id : String) (timeoutMs startMs : Nat)
    (nows : List Nat) : Except PyError Task :=
  waitLoop s task_id timeoutMs { val := startMs, aware := true } nows

/-- The manager operations that mutate its state, used to quantify over
reachable states. -/
inductive Op where
  | submit (name : String) (func : WorkResult) (now : Nat)
  | worker (n1 n2 : Nat)
  | cleanup (hours now : Nat)
deriving DecidableEq, Repr

/-- Apply one operation.  A raising `cleanup_old_tasks` leaves the state
unchanged: the `TypeError` escapes while `to_remove` is being built, before
any deletion has happened. -/
def applyOp (s : SimpleTaskManager) : Op → SimpleTaskManager
  | .submit name f now => (submit_task s now name f).2
  | .worker n1 n2 => worker_step s n1 n2
  | .cleanup hours now =>
      match cleanup_old_tasks s now hours with
      | .ok s' => s'
      | .error _ => s

/-- Run a sequence of operations. -/
def runOps (s : SimpleTaskManager) (ops : List Op) : SimpleTaskManager :=
  ops.foldl applyOp s

/-- An entry of `SimpleScheduler.scheduled_tasks` (the `func`/`args`/`kwargs`
entries folded into one invocation outcome, as in `Task`).  `next_run` is
naive: the source builds it from `datetime.now()`. -/
structure ScheduledJob where
  name : String
  func : WorkResult
  interval : Nat
  next_run : PyDatetime
deriving DecidableEq, Repr

/-- The body of the `for` over `scheduled_tasks` for one job at one tick:
if `current_time >= next_run`, submit the job and set
`next_run = current_time + interval`. -/
def tickJob (m : SimpleTaskManager) (currentMs : Nat) (j : ScheduledJob) :
    Except PyError (ScheduledJob × SimpleTaskManager) := do
  let due ← dtGe { val := currentMs, aware := false } j.next_run
  if due then
    pure ({ j with next_run := { val := currentMs + j.interval, aware := false } },
          (submit_task m currentMs j.name j.func).2)
  else
    pure (j, m)

/-- One tick of `_scheduler_loop`: iterate the job table in order,
submitting every due job and resetting its `next_run`. -/
def scheduler_tick (jobs : List (String × ScheduledJob)) (m : SimpleTaskManager)
    (currentMs : Nat) : Except PyError (List (String × ScheduledJob) × SimpleTaskManager) :=
  match jobs with
  | [] => .ok ([], m)
  | (k, j) :: rest => do
      let (j', m') ← tickJob m currentMs j
      let (rest', m'') ← scheduler_tick rest m' currentMs
      pure ((k, j') :: rest', m'')

/-- Model of `schedule_periodic(name, func, interval_minutes)` at naive time `nowMs`
(60000 ms per minute): key `"periodic_" + name`, `next_run = now + interval`. -/
def schedule_periodic (jobs : List (String × ScheduledJob)) (name : String)
    (func : WorkResult) (interval_minutes nowMs : Nat) : List (String × ScheduledJob) :=
  dictSet jobs ("periodic_" ++ name)
    { name := name, func := func, interval := interval_minutes * 60000,
      next_run := { val := nowMs + interval_minutes * 60000, aware := false } }

/-! ## Dictionary lemmas -/

theorem dictGet_set_self {α : Type} (d : List (String × α)) (k : String) (v : α) :
    dictGet (dictSet d k v) k = some v := by
  induction d with
  | nil => simp [dictGet, dictSet]
  | cons p rest ih =>
      obtain ⟨k', v'⟩ := p
      by_cases h : k' = k
      · subst h; simp [dictGet, dictSet]
      · simp [dictGet, dictSet, h, ih]

theorem dictGet_set_ne {α : Type} (d : List (String × α)) (k q : String) (v : α)
    (h : q ≠ k) : dictGet (dictSet d k v) q = dictGet d q := by
  have hkq : ¬ (k = q) := fun hh => h hh.symm
  induction d with
  | nil => simp [dictGet, dictSet, hkq]
  | cons p rest ih =>
      obtain ⟨k', v'⟩ := p
      by_cases hk : k' = k
      · subst hk
        simp [dictGet, dictSet, hkq]
      · simp [dictGet, dictSet, hk, ih]

theorem dictGet_set_isSome {α : Type} (d : List (String × α)) (k q : String) (v : α)
    (h : (dictGet d q).isSome = true) : (dictGet (dictSet d k v) q).isSome = true := by
  by_cases hq : q = k
  · subst hq; rw [dictGet_set_self]; rfl
  · rw [dictGet_set_ne d k q v hq]; exact h

theorem dictGet_mem {α : Type} (d : List (String × α)) (k : String) (v : α)
    (h : dictGet d k = some v) : (k, v) ∈ d := by
  induction d with
  | nil => simp [dictGet] at h
  | cons p rest ih =>
      obtain ⟨k', v'⟩ := p
      by_cases hk : k' = k
      · subst hk
        simp [dictGet] at h
        subst h
        exact List.mem_cons_self _ _
      · simp [dictGet, hk] at h
        exact List.mem_cons_of_mem _ (ih h)

theorem dict_nodup_unique {α : Type} (d : List (String × α)) (k : String) (v1 v2 : α)
    (hnd : (d.map Prod.fst).Nodup) (h1 : (k, v1) ∈ d) (h2 : (k, v2) ∈ d) : v1 = v2 := by
  induction d with
  | nil => simp at h1
  | cons p rest ih =>
      obtain ⟨k', v'⟩ := p
      simp only [List.map_cons, List.nodup_cons] at hnd
      rcases List.mem_cons.mp h1 with h1a | h1b
      · rcases List.mem_cons.mp h2 with h2a | h2b
        · injection h1a with hk1 hv1
          injection h2a with hk2 hv2
          rw [hv1, hv2]
        · exfalso
          injection h1a with hk1 hv1
          have hm : k ∈ List.map Prod.fst rest := List.mem_map.mpr ⟨(k, v2), h2b, rfl⟩
          rw [hk1] at hm
          exact hnd.1 hm
      · rcases List.mem_cons.mp h2 with h2a | h2b
        · exfalso
          injection h2a with hk2 hv2
          have hm : k ∈ List.map Prod.fst rest := List.mem_map.mpr ⟨(k, v1), h1b, rfl⟩
          rw [hk2] at hm
          exact hnd.1 hm
        · exact ih hnd.2 h1b h2b

theorem dictGet_filter_not_removed {α : Type} (d : List (String × α)) (rem : List String)
    (k : String) (hk : k ∉ rem) :
    dictGet (d.filter (fun p => !(rem.contains p.1))) k = dictGet d k := by
  induction d with
  | nil => rfl
  | cons p rest ih =>
      obtain ⟨k', v'⟩ := p
      rw [List.filter_cons]
      by_cases hmem : k' ∈ rem
      · rw [if_neg]
        · have hkk : ¬ (k' = k) := fun he => hk (he ▸ hmem)
          rw [ih]
          simp [dictGet, hkk]
        · simp [hmem]
      · rw [if_pos]
        · by_cases hkk : k' = k
          · subst hkk; simp [dictGet]
          · simp only [dictGet, if_neg hkk]
            exact ih
        · simp [hmem]

/-! ## Record and state invariants -/

/-- Per-record discipline: `result` only with COMPLETED, `error` only with
FAILED, and the timestamps set by the code are tz-aware. -/
def TaskOk (t : Task) : Prop :=
  (t.status ≠ TaskStatus.completed → t.result = none) ∧
  (t.status ≠ TaskStatus.failed → t.error = none) ∧
  t.created_at.aware = true ∧
  (∀ c, t.completed_at = some c → c.aware = true)

/-- Invariant of every reachable manager state. -/
structure WF (s : SimpleTaskManager) : Prop where
  heapOk : ∀ (r : Nat) (t : Task), s.heap[r]? = some t → TaskOk t
  queueOk : ∀ r : Nat, r ∈ s.queue →
    ∃ t : Task, s.heap[r]? = some t ∧ t.status = TaskStatus.pending
  queueNodup : s.queue.Nodup
  queueIdOk : ∀ (r : Nat) (t : Task), r ∈ s.queue → s.heap[r]? = some t →
    (dictGet s.tasks t.id).isSome = true

theorem wf_init : WF initState := by
  refine ⟨?_, ?_, ?_, ?_⟩ <;> simp [initState]

theorem heapGet_of_getElem (s : SimpleTaskManager) (r : Nat) (t : Task)
    (h : s.heap[r]? = some t) : heapGet s r = t := by
  simp [heapGet, h]

theorem heapGet_aware (s : SimpleTaskManager) (hWF : WF s) (r : Nat) :
    (heapGet s r).created_at.aware = true ∧
    (∀ c, (heapGet s r).completed_at = some c → c.aware = true) := by
  cases h : s.heap[r]? with
  | none => simp [heapGet, h, defaultTask]
  | some t =>
      rw [heapGet_of_getElem s r t h]
      exact ⟨(hWF.heapOk r t h).2.2.1, (hWF.heapOk r t h).2.2.2⟩

theorem getElem_lt_length {α : Type} (l : List α) (r : Nat) (t : α) (h : l[r]? = some t) :
    r < l.length := by
  rcases List.getElem?_eq_some.mp h with ⟨h1, _⟩
  exact h1

theorem getElem_append_singleton_cases {α : Type} (l : List α) (a : α) (r : Nat) (t : α)
    (h : (l ++ [a])[r]? = some t) : l[r]? = some t ∨ (r = l.length ∧ t = a) := by
  by_cases hr : r < l.length
  · left
    rw [List.getElem?_append_left hr] at h
    exact h
  · right
    have hlen : r < l.length + 1 := by
      have h2 := getElem_lt_length _ _ _ h
      simpa using h2
    have hre : r = l.length := Nat.le_antisymm (Nat.lt_succ_iff.mp hlen) (Nat.le_of_not_lt hr)
    subst hre
    rw [List.getElem?_concat_length] at h
    injection h with h2
    exact ⟨rfl, h2.symm⟩

/-! ## `cleanup_old_tasks` raises `TypeError` on every nonempty table:
its naive cutoff is compared against tz-aware record timestamps. -/

theorem shouldRemove_typeError (t : Task) (cutoff : PyDatetime)
    (hc : cutoff.aware = false) (h1 : t.created_at.aware = true)
    (h2 : ∀ c, t.completed_at = some c → c.aware = true) :
    shouldRemove t cutoff = .error PyError.typeError := by
  cases hcomp : t.completed_at with
  | none =>
      have hlt : dtLt t.created_at cutoff = .error PyError.typeError := by
        simp [dtLt, h1, hc]
      simp [shouldRemove, hcomp, hlt, Bind.bind, Except.bind]
  | some c =>
      have hlt : dtLt c cutoff = .error PyError.typeError := by
        simp [dtLt, h2 c hcomp, hc]
      simp [shouldRemove, hcomp, hlt, Bind.bind, Except.bind]

theorem computeToRemove_typeError (s : SimpleTaskManager) (task_id : String) (r : Nat)
    (rest : List (String × Nat)) (cutoff : PyDatetime)
    (h : shouldRemove (heapGet s r) cutoff = .error PyError.typeError) :
    computeToRemove s ((task_id, r) :: rest) cutoff = .error PyError.typeError := by
  simp [computeToRemove, h, Bind.bind, Except.bind]

theorem cleanup_raises_of_nonempty (s : SimpleTaskManager) (hWF : WF s)
    (nowMs hours : Nat) (e : String × Nat) (rest : List (String × Nat))
    (h : s.tasks = e :: rest) :
    cleanup_old_tasks s nowMs hours = .error PyError.typeError := by
  obtain ⟨task_id, r⟩ := e
  have ha := heapGet_aware s hWF r
  have hs : shouldRemove (heapGet s r)
      { val := nowMs - hours * 3600000, aware := false } = .error PyError.typeError :=
    shouldRemove_typeError _ _ rfl ha.1 ha.2
  simp [cleanup_old_tasks, h, computeToRemove_typeError s task_id r rest _ hs]

theorem cleanup_empty (s : SimpleTaskManager) (nowMs hours : Nat) (h : s.tasks = []) :
    cleanup_old_tasks s nowMs hours = .ok s := by
  cases s
  simp only at h
  subst h
  simp [cleanup_old_tasks, computeToRemove]

theorem applyOp_cleanup_eq (s : SimpleTaskManager) (hWF : WF s) (hours nowMs : Nat) :
    applyOp s (Op.cleanup hours nowMs) = s := by
  cases h : s.tasks with
  | nil => simp [applyOp, cleanup_empty s nowMs hours h]
  | cons e rest => simp [applyOp, cleanup_raises_of_nonempty s hWF nowMs hours e rest h]

/-! ## Execution step lemmas -/

theorem execute_task_ok_eq (t : Task) (n1 n2 : Nat) (v : PyValue) (h : t.func = .ok v) :
    execute_task t n1 n2 =
      { t with status := TaskStatus.completed,
               started_at := some { val := n1, aware := true },
               completed_at := some { val := n2, aware := true },
               result := some v } := by
  simp [execute_task, h]

theorem execute_task_err_eq (t : Task) (n1 n2 : Nat) (msg : String) (h : t.func = .err msg) :
    execute_task t n1 n2 =
      { t with status := TaskStatus.failed,
               started_at := some { val := n1, aware := true },
               completed_at := some { val := n2, aware := true },
               error := some msg } := by
  simp [execute_task, h]

theorem taskOk_execute (t : Task) (n1 n2 : Nat) (hOk : TaskOk t)
    (hp : t.status = TaskStatus.pending) : TaskOk (execute_task t n1 n2) := by
  obtain ⟨hr, he, hca, hcomp⟩ := hOk
  have hres : t.result = none := hr (by rw [hp]; intro hh; exact TaskStatus.noConfusion hh)
  have herr : t.error = none := he (by rw [hp]; intro hh; exact TaskStatus.noConfusion hh)
  cases hf : t.func with
  | ok v =>
      rw [execute_task_ok_eq t n1 n2 v hf]
      refine ⟨fun hh => absurd rfl hh, fun _ => herr, hca, ?_⟩
      intro c hc
      injection hc with hc1
      rw [← hc1]
  | err msg =>
      rw [execute_task_err_eq t n1 n2 msg hf]
      refine ⟨fun _ => hres, fun hh => absurd rfl hh, hca, ?_⟩
      intro c hc
      injection hc with hc1
      rw [← hc1]

theorem worker_step_cons (s : SimpleTaskManager) (n1 n2 q : Nat) (rest : List Nat)
    (h : s.queue = q :: rest) :
    worker_step s n1 n2 =
      { s with heap := s.heap.set q (execute_task (heapGet s q) n1 n2), queue := rest } := by
  simp [worker_step, h]

/-! ## Preservation of the invariant -/

theorem wf_submit (s : SimpleTaskManager) (hWF : WF s) (nowMs : Nat) (name : String)
    (f : WorkResult) : WF (submit_task s nowMs name f).2 := by
  constructor
  case heapOk =>
    intro r t h
    simp only [submit_task] at h
    rcases getElem_append_singleton_cases _ _ _ _ h with hold | ⟨hre, hte⟩
    · exact hWF.heapOk r t hold
    · subst hte
      exact ⟨fun _ => rfl, fun _ => rfl, rfl, fun c hc => Option.noConfusion hc⟩
  case queueOk =>
    intro r hr
    simp only [submit_task] at hr ⊢
    rcases List.mem_append.mp hr with hold | hnew
    · obtain ⟨t, ht, htp⟩ := hWF.queueOk r hold
      have hlt : r < s.heap.length := getElem_lt_length _ _ _ ht
      exact ⟨t, by rw [List.getElem?_append_left hlt]; exact ht, htp⟩
    · have hre : r = s.heap.length := by simpa using hnew
      subst hre
      exact ⟨_, List.getElem?_concat_length _ _, rfl⟩
  case queueNodup =>
    simp only [submit_task]
    refine List.nodup_append.mpr ⟨hWF.queueNodup, List.nodup_singleton _, ?_⟩
    intro r hr hmem
    have hre : r = s.heap.length := by simpa using hmem
    obtain ⟨t, ht, _⟩ := hWF.queueOk r hr
    have hlt : r < s.heap.length := getElem_lt_length _ _ _ ht
    rw [hre] at hlt
    exact Nat.lt_irrefl _ hlt
  case queueIdOk =>
    intro r t hr h
    simp only [submit_task] at hr h ⊢
    rcases List.mem_append.mp hr with hold | hnew
    · obtain ⟨t', ht', _⟩ := hWF.queueOk r hold
      have hlt : r < s.heap.length := getElem_lt_length _ _ _ ht'
      rw [List.getElem?_append_left hlt] at h
      exact dictGet_set_isSome _ _ _ _ (hWF.queueIdOk r t hold h)
    · have hre : r = s.heap.length := by simpa using hnew
      subst hre
      rw [List.getElem?_concat_length] at h
      injection h with h2
      rw [← h2]
      rw [dictGet_set_self]
      rfl

theorem wf_worker (s : SimpleTaskManager) (hWF : WF s) (n1 n2 : Nat) :
    WF (worker_step s n1 n2) := by
  cases hq : s.queue with
  | nil => simpa [worker_step, hq] using hWF
  | cons q rest =>
      obtain ⟨tq, htq, htqp⟩ := hWF.queueOk q (by rw [hq]; exact List.mem_cons_self _ _)
      have hqlen : q < s.heap.length := getElem_lt_length _ _ _ htq
      have hnodup := hWF.queueNodup
      rw [hq] at hnodup
      have hqnotin : q ∉ rest := (List.nodup_cons.mp hnodup).1
      rw [worker_step_cons s n1 n2 q rest hq]
      constructor
      case heapOk =>
        intro r t h
        by_cases hrq : r = q
        · subst hrq
          rw [List.getElem?_set_eq_of_lt _ hqlen] at h
          injection h with h2
          rw [← h2, heapGet_of_getElem s r tq htq]
          exact taskOk_execute tq n1 n2 (hWF.heapOk r tq htq) htqp
        · rw [List.getElem?_set_ne (fun he => hrq he.symm)] at h
          exact hWF.heapOk r t h
      case queueOk =>
        intro r hr
        have hrq : q ≠ r := fun he => hqnotin (he ▸ hr)
        obtain ⟨t, ht, htp⟩ := hWF.queueOk r (by rw [hq]; exact List.mem_cons_of_mem _ hr)
        exact ⟨t, by rw [List.getElem?_set_ne hrq]; exact ht, htp⟩
      case queueNodup => exact (List.nodup_cons.mp hnodup).2
      case queueIdOk =>
        intro r t hr h
        have hrq : q ≠ r := fun he => hqnotin (he ▸ hr)
        rw [List.getElem?_set_ne hrq] at h
        exact hWF.queueIdOk r t (by rw [hq]; exact List.mem_cons_of_mem _ hr) h

theorem wf_applyOp (s : SimpleTaskManager) (hWF : WF s) (op : Op) : WF (applyOp s op) := by
  cases op with
  | submit name f now => exact wf_submit s hWF now name f
  | worker n1 n2 => exact wf_worker s hWF n1 n2
  | cleanup hours now => rw [applyOp_cleanup_eq s hWF hours now]; exact hWF

theorem wf_runOps (s : SimpleTaskManager) (hWF : WF s) (ops : List Op) : WF (runOps s ops) := by
  induction ops generalizing s with
  | nil => exact hWF
  | cons op rest ih => exact ih (applyOp s op) (wf_applyOp s hWF op)

theorem terminal_preserved_applyOp (s : SimpleTaskManager) (hWF : WF s) (op : Op)
    (r : Nat) (t : Task) (h : s.heap[r]? = some t) (ht : isTerminal t.status = true) :
    (applyOp s op).heap[r]? = some t := by
  cases op with
  | submit name f now =>
      have hr : r < s.heap.length := getElem_lt_length _ _ _ h
      show ((submit_task s now name f).2).heap[r]? = some t
      simp only [submit_task]
      rw [List.getElem?_append_left hr]
      exact h
  | worker n1 n2 =>
      show (worker_step s n1 n2).heap[r]? = some t
      cases hq : s.queue with
      | nil => simpa [worker_step, hq] using h
      | cons q rest =>
          obtain ⟨tq, htq, htqp⟩ := hWF.queueOk q (by rw [hq]; exact List.mem_cons_self _ _)
          have hrq : q ≠ r := by
            intro he
            subst he
            rw [h] at htq
            injection htq with he2
            rw [he2, htqp] at ht
            simp [isTerminal] at ht
          rw [worker_step_cons s n1 n2 q rest hq]
          simpa [List.getElem?_set_ne hrq] using h
  | cleanup hours now =>
      rw [applyOp_cleanup_eq s hWF hours now]
      exact h

theorem terminal_preserved_runOps (s : SimpleTaskManager) (hWF : WF s) (ops : List Op)
    (r : Nat) (t : Task) (h : s.heap[r]? = some t) (ht : isTerminal t.status = true) :
    (runOps s ops).heap[r]? = some t := by
  induction ops generalizing s with
  | nil => exact h
  | cons op rest ih =>
      exact ih (applyOp s op) (wf_applyOp s hWF op)
        (terminal_preserved_applyOp s hWF op r t h ht)

theorem tasks_isSome_applyOp (s : SimpleTaskManager) (hWF : WF s) (op : Op) (id : String)
    (h : (dictGet s.tasks id).isSome = true) :
    (dictGet (applyOp s op).tasks id).isSome = true := by
  cases op with
  | submit name f now =>
      show (dictGet ((submit_task s now name f).2).tasks id).isSome = true
      simp only [submit_task]
      exact dictGet_set_isSome _ _ _ _ h
  | worker n1 n2 =>
      show (dictGet (worker_step s n1 n2).tasks id).isSome = true
      cases hq : s.queue with
      | nil => simpa [worker_step, hq] using h
      | cons q rest =>
          rw [worker_step_cons s n1 n2 q rest hq]
          exact h
  | cleanup hours now =>
      rw [applyOp_cleanup_eq s hWF hours now]
      exact h

theorem tasks_isSome_runOps (s : SimpleTaskManager) (hWF : WF s) (ops : List Op) (id : String)
    (h : (dictGet s.tasks id).isSome = true) :
    (dictGet (runOps s ops).tasks id).isSome = true := by
  induction ops generalizing s with
  | nil => exact h
  | cons op rest ih =>
      exact ih (applyOp s op) (wf_applyOp s hWF op) (tasks_isSome_applyOp s hWF op id h)

/-! ## Further helper lemmas -/

theorem get_after_submit (s : SimpleTaskManager) (nowMs : Nat) (name : String)
    (f : WorkResult) :
    get_task_status (submit_task s nowMs name f).2 (submit_task s nowMs name f).1
      = some (newTask name nowMs f) := by
  have hL : ((submit_task s nowMs name f).2).heap[s.heap.length]? = some (newTask name nowMs f) := by
    simp only [submit_task]
    exact List.getElem?_concat_length _ _
  show (dictGet ((submit_task s nowMs name f).2).tasks (submit_task s nowMs name f).1).map
      (heapGet (submit_task s nowMs name f).2) = some (newTask name nowMs f)
  have hd : dictGet ((submit_task s nowMs name f).2).tasks (submit_task s nowMs name f).1
      = some s.heap.length := by
    simp only [submit_task]
    exact dictGet_set_self _ _ _
  rw [hd]
  simp only [Option.map_some']
  rw [heapGet_of_getElem _ _ _ hL]

theorem computeToRemove_ok_mem (s : SimpleTaskManager) (entries : List (String × Nat))
    (cutoff : PyDatetime) (rem : List String) (k : String)
    (h : computeToRemove s entries cutoff = .ok rem) (hk : k ∈ rem) :
    ∃ r : Nat, (k, r) ∈ entries ∧ shouldRemove (heapGet s r) cutoff = .ok true := by
  induction entries generalizing rem with
  | nil =>
      simp only [computeToRemove] at h
      injection h with h2
      subst h2
      simp at hk
  | cons e rest ih =>
      obtain ⟨id, r⟩ := e
      simp only [computeToRemove, Bind.bind, Except.bind] at h
      cases hb : shouldRemove (heapGet s r) cutoff with
      | error e' => rw [hb] at h; exact Except.noConfusion h
      | ok b =>
          rw [hb] at h
          cases htl : computeToRemove s rest cutoff with
          | error e' => rw [htl] at h; exact Except.noConfusion h
          | ok tl =>
              rw [htl] at h
              simp only [pure, Except.pure] at h
              injection h with h2
              cases b with
              | true =>
                  subst h2
                  rcases List.mem_cons.mp hk with hke | hkm
                  · subst hke
                    exact ⟨r, List.mem_cons_self _ _, hb⟩
                  · obtain ⟨r', hmem, hsr⟩ := ih tl htl hkm
                    exact ⟨r', List.mem_cons_of_mem _ hmem, hsr⟩
              | false =>
                  subst h2
                  obtain ⟨r', hmem, hsr⟩ := ih tl htl hk
                  exact ⟨r', List.mem_cons_of_mem _ hmem, hsr⟩

theorem shouldRemove_cancelled (t : Task) (cutoff : PyDatetime)
    (h2 : t.status = TaskStatus.cancelled) (h3 : t.completed_at = none) :
    shouldRemove t cutoff ≠ .ok true := by
  intro hcon
  simp only [shouldRemove, h3, Bind.bind, Except.bind] at hcon
  cases hlt : dtLt t.created_at cutoff with
  | error e => rw [hlt] at hcon; exact Except.noConfusion hcon
  | ok b =>
      rw [hlt] at hcon
      simp only [pure, Except.pure] at hcon
      injection hcon with h4
      rw [h2] at h4
      simp at h4

/-! ## Claim theorems -/

/-- Counterexample to claim C1: `submit_task` on a manager that is not
running (here the never-started `initState`, `running = false`) does not
fail with any `NotRunningError` — no such check exists in the source.  It
creates the PENDING record, stores it, enqueues it, and returns its id. -/
theorem submit_before_start_counterexample :
    initState.running = false ∧
    (submit_task initState 5 "a" (WorkResult.ok PyValue.pyNone)).1 = "a_5" ∧
    get_task_status (submit_task initState 5 "a" (WorkResult.ok PyValue.pyNone)).2 "a_5"
      = some (newTask "a" 5 (WorkResult.ok PyValue.pyNone)) ∧
    (submit_task initState 5 "a" (WorkResult.ok PyValue.pyNone)).2.queue = [0] :=
  ⟨rfl, rfl, rfl, rfl⟩

/-- Claim C1 (as amended): `submit_task` never signals `NotRunningError`.
Whether or not the manager is running, it creates the PENDING record,
stores it in the record table, enqueues its reference, and returns its id
(the embedded function is total: the source raises nothing). -/
theorem submit_ignores_running (s : SimpleTaskManager) (nowMs : Nat) (name : String)
    (f : WorkResult) (h : s.running = false) :
    get_task_status (submit_task s nowMs name f).2 (submit_task s nowMs name f).1
      = some (newTask name nowMs f) ∧
    (newTask name nowMs f).status = TaskStatus.pending ∧
    (submit_task s nowMs name f).2.queue = s.queue ++ [s.heap.length] :=
  ⟨get_after_submit s nowMs name f, rfl, rfl⟩

/-- Witness for `submit_ignores_running` at the stopped `initState`. -/
theorem submit_ignores_running_witness :
    initState.running = false ∧
    get_task_status (submit_task initState 5 "a" (WorkResult.ok PyValue.pyNone)).2
        (submit_task initState 5 "a" (WorkResult.ok PyValue.pyNone)).1
      = some (newTask "a" 5 (WorkResult.ok PyValue.pyNone)) :=
  ⟨rfl, (submit_ignores_running initState 5 "a" (WorkResult.ok PyValue.pyNone) rfl).1⟩

/-- A manager state whose queued task has been externally marked CANCELLED
before a worker receives it (the pre-cancellation scenario of the spec). -/
def cancelledState : SimpleTaskManager :=
  { max_workers := 5,
    heap := [{ id := "c_1", name := "c", func := .ok (.pyStr "done"),
               status := .cancelled, created_at := { val := 1, aware := true },
               started_at := none, completed_at := none, result := none, error := none }],
    tasks := [("c_1", 0)], queue := [0], running := true }

/-- Counterexample to claim C2: the worker does not skip a dequeued record
whose status is already CANCELLED.  It executes it: the status becomes
COMPLETED, `result` is set and `started_at` is stamped, contradicting
"the record's work is not invoked and ... left unchanged". -/
theorem cancelled_not_skipped_counterexample :
    (heapGet cancelledState 0).status = TaskStatus.cancelled ∧
    (heapGet (worker_step cancelledState 6 7) 0).status = TaskStatus.completed ∧
    (heapGet (worker_step cancelledState 6 7) 0).result = some (PyValue.pyStr "done") ∧
    (heapGet (worker_step cancelledState 6 7) 0).started_at
      = some { val := 6, aware := true } :=
  ⟨rfl, rfl, rfl, rfl⟩

/-- Claim C2 (as amended): `_execute_task` performs no cancelled check; a
dequeued record whose status is CANCELLED is executed like any other —
`started_at` and `completed_at` are stamped and the status is overwritten
with COMPLETED or FAILED according to the work's outcome. -/
theorem cancelled_record_executed (t : Task) (n1 n2 : Nat)
    (h : t.status = TaskStatus.cancelled) :
    (execute_task t n1 n2).started_at = some { val := n1, aware := true } ∧
    (execute_task t n1 n2).completed_at = some { val := n2, aware := true } ∧
    ((execute_task t n1 n2).status = TaskStatus.completed ∨
     (execute_task t n1 n2).status = TaskStatus.failed) := by
  cases hf : t.func with
  | ok v => rw [execute_task_ok_eq t n1 n2 v hf]; exact ⟨rfl, rfl, Or.inl rfl⟩
  | err m => rw [execute_task_err_eq t n1 n2 m hf]; exact ⟨rfl, rfl, Or.inr rfl⟩

/-- Witness for `cancelled_record_executed` at the CANCELLED task of
`cancelledState`. -/
theorem cancelled_record_executed_witness :
    (heapGet cancelledState 0).status = TaskStatus.cancelled ∧
    ((execute_task (heapGet cancelledState 0) 6 7).status = TaskStatus.completed ∨
     (execute_task (heapGet cancelledState 0) 6 7).status = TaskStatus.failed) :=
  ⟨rfl, (cancelled_record_executed (heapGet cancelledState 0) 6 7 rfl).2.2⟩

/-- A manager holding one PENDING task with id `"t"`. -/
def waitState : SimpleTaskManager :=
  { max_workers := 5,
    heap := [{ id := "t", name := "t", func := .ok .pyNone, status := .pending,
               created_at := { val := 1000, aware := true }, started_at := none,
               completed_at := none, result := none, error := none }],
    tasks := [("t", 0)], queue := [0], running := true }

/-- Claim C3 (code bug): `wait_for_task` on an existing, non-terminal task
raises `TypeError` on its very first poll — `datetime.now() - start_time`
subtracts the aware `start_time` from a naive reading — so the intended
`TimeoutError` (and the poll loop itself) is unreachable.  Here the task
exists and is PENDING, the deadline (30 s) is far away, and the call
nevertheless raises `TypeError`. -/
theorem wait_raises_typeError :
    wait_for_task waitState "t" 30000 1000 [1050] = .error PyError.typeError := rfl

/-- A scheduled job with interval 100 ms whose `next_run` elapsed at time 0. -/
def job4 : ScheduledJob :=
  { name := "j", func := .ok .pyNone, interval := 100,
    next_run := { val := 0, aware := false } }

/-- Counterexample to claim C4: firing `job4` (previous `next_run = 0`,
`interval = 100`) at tick time 250 sets `next_run` to 350 = now + interval,
not to 100 = previous `next_run` + interval. -/
theorem next_run_counterexample :
    scheduler_tick [("periodic_j", job4)] initState 250
      = .ok ([("periodic_j", { job4 with next_run := { val := 350, aware := false } })],
             (submit_task initState 250 "j" (WorkResult.ok PyValue.pyNone)).2) ∧
    (350 : Nat) ≠ job4.next_run.val + job4.interval :=
  ⟨rfl, by decide⟩

/-- Claim C4 (as amended): each time a scheduled job fires, its `next_run`
is reset to the tick's current time plus the interval (`now + interval`),
not advanced from the previous `next_run`. -/
theorem tick_sets_next_run_to_now_plus_interval (jobs jobs' : List (String × ScheduledJob))
    (m m' : SimpleTaskManager) (cur : Nat) (id : String) (j : ScheduledJob)
    (h : scheduler_tick jobs m cur = .ok (jobs', m'))
    (h1 : dictGet jobs id = some j)
    (h2 : j.next_run.aware = false) (h3 : j.next_run.val ≤ cur) :
    dictGet jobs' id = some { j with next_run := { val := cur + j.interval, aware := false } } := by
  induction jobs generalizing m jobs' m' with
  | nil => simp [dictGet] at h1
  | cons e rest ih =>
      obtain ⟨k, jh⟩ := e
      cases ht : tickJob m cur jh with
      | error e' =>
          simp only [scheduler_tick, Bind.bind, Except.bind, ht] at h
          exact Except.noConfusion h
      | ok p =>
          obtain ⟨jh', m1⟩ := p
          simp only [scheduler_tick, Bind.bind, Except.bind, ht] at h
          cases hrest : scheduler_tick rest m1 cur with
          | error e' =>
              simp only [hrest] at h
              exact Except.noConfusion h
          | ok q =>
              obtain ⟨rest', m2⟩ := q
              simp only [hrest, pure, Except.pure] at h
              injection h with h4
              injection h4 with hjobs hm
              by_cases hk : k = id
              · subst hk
                simp only [dictGet, if_pos rfl] at h1
                injection h1 with hjj
                subst hjj
                have hdge : dtGe { val := cur, aware := false } jh.next_run = .ok true := by
                  simp [dtGe, h2, h3]
                have htick : tickJob m cur jh
                    = .ok ({ jh with next_run := { val := cur + jh.interval, aware := false } },
                           (submit_task m cur jh.name jh.func).2) := by
                  simp [tickJob, hdge, Bind.bind, Except.bind, pure, Except.pure]
                rw [htick] at ht
                injection ht with ht2
                injection ht2 with htj htm
                rw [← hjobs, dictGet, if_pos rfl, htj]
              · rw [← hjobs, dictGet, if_neg hk]
                simp only [dictGet, if_neg hk] at h1
                exact ih rest' m1 m2 hrest h1

/-- Witness for `tick_sets_next_run_to_now_plus_interval` at the concrete
tick of `next_run_counterexample`. -/
theorem tick_sets_next_run_witness :
    scheduler_tick [("periodic_j", job4)] initState 250
      = .ok ([("periodic_j", { job4 with next_run := { val := 350, aware := false } })],
             (submit_task initState 250 "j" (WorkResult.ok PyValue.pyNone)).2) ∧
    dictGet [("periodic_j", job4)] "periodic_j" = some job4 ∧
    job4.next_run.aware = false ∧
    job4.next_run.val ≤ 250 ∧
    dictGet [("periodic_j", { job4 with next_run := { val := 350, aware := false } })]
        "periodic_j"
      = some { job4 with next_run := { val := 250 + job4.interval, aware := false } } :=
  ⟨rfl, rfl, rfl, by decide,
   tick_sets_next_run_to_now_plus_interval [("periodic_j", job4)]
     [("periodic_j", { job4 with next_run := { val := 350, aware := false } })]
     initState (submit_task initState 250 "j" (WorkResult.ok PyValue.pyNone)).2
     250 "periodic_j" job4 rfl rfl rfl (by decide)⟩

/-- Counterexample to claim C5: two submissions with the same name in the
same millisecond return the SAME id — the id is only the name plus the
millisecond timestamp, so it is not injective over submissions. -/
theorem duplicate_id_counterexample :
    (submit_task initState 5 "a" (WorkResult.ok PyValue.pyNone)).1
      = (submit_task (submit_task initState 5 "a" (WorkResult.ok PyValue.pyNone)).2 5 "a"
          (WorkResult.err "x")).1 := rfl

/-- Claim C5 (as amended): ids returned by `submit_task` are not always
distinct: the id is `name + "_" + millisecond timestamp`, so two
submissions with the same name in the same millisecond receive the same
id, and the second overwrites the first's record-table entry (both task
objects remain on the heap and in the queue). -/
theorem same_millisecond_id_collision (s : SimpleTaskManager) (nowMs : Nat) (name : String)
    (f g : WorkResult) :
    (submit_task s nowMs name f).1
      = (submit_task (submit_task s nowMs name f).2 nowMs name g).1 ∧
    dictGet (submit_task (submit_task s nowMs name f).2 nowMs name g).2.tasks
        (submit_task s nowMs name f).1 = some (s.heap.length + 1) ∧
    heapGet (submit_task (submit_task s nowMs name f).2 nowMs name g).2 (s.heap.length + 1)
      = newTask name nowMs g := by
  refine ⟨rfl, ?_, ?_⟩
  · show dictGet (dictSet (dictSet s.tasks (newTask name nowMs f).id s.heap.length)
        (newTask name nowMs g).id (s.heap ++ [newTask name nowMs f]).length)
        (newTask name nowMs f).id = some (s.heap.length + 1)
    have hlen : (s.heap ++ [newTask name nowMs f]).length = s.heap.length + 1 := by
      simp
    rw [hlen]
    exact dictGet_set_self _ _ _
  · have hL : ((submit_task (submit_task s nowMs name f).2 nowMs name g).2).heap[s.heap.length + 1]?
        = some (newTask name nowMs g) := by
      show ((s.heap ++ [newTask name nowMs f]) ++ [newTask name nowMs g])[s.heap.length + 1]?
        = some (newTask name nowMs g)
      have hlen : (s.heap ++ [newTask name nowMs f]).length = s.heap.length + 1 := by
        simp
      rw [← hlen]
      exact List.getElem?_concat_length _ _
    exact heapGet_of_getElem _ _ _ hL

/-- A manager holding one long-COMPLETED record (completed at t = 5 ms). -/
def staleCompletedState : SimpleTaskManager :=
  { max_workers := 5,
    heap := [{ id := "a_0", name := "a", func := .ok .pyNone, status := .completed,
               created_at := { val := 0, aware := true },
               started_at := some { val := 1, aware := true },
               completed_at := some { val := 5, aware := true },
               result := some PyValue.pyNone, error := none }],
    tasks := [("a_0", 0)], queue := [], running := true }

/-- Claim C6 (code bug): `cleanup_old_tasks` never removes anything — on any
nonempty record table it raises `TypeError`, because its naive cutoff
(`datetime.now() - timedelta(...)`) is compared against the records'
tz-aware timestamps.  Here a record completed at t = 5 ms should be removed
by a cleanup with cutoff at t = 10⁹ ms, yet the call raises and the table
is left unchanged. -/
theorem cleanup_raises_instead_of_removing :
    cleanup_old_tasks staleCompletedState 1000000000 0 = .error PyError.typeError ∧
    applyOp staleCompletedState (Op.cleanup 0 1000000000) = staleCompletedState :=
  ⟨rfl, rfl⟩

/-- Claim C7: when a task's work raises, the exception is caught inside the
execution step (`execute_task` and `worker_step` are total functions: the
`try/except Exception` converts the error instead of propagating it): the
record's `error` is set to `str(e)`, its status to FAILED, `completed_at`
is stamped, and the worker's queue advances so it can keep pulling. -/
theorem failed_work_captured (s : SimpleTaskManager) (n1 n2 q : Nat) (rest : List Nat)
    (msg : String) (hq : s.queue = q :: rest) (hf : (heapGet s q).func = .err msg) :
    (worker_step s n1 n2).queue = rest ∧
    (worker_step s n1 n2).heap = s.heap.set q
      { (heapGet s q) with
          status := TaskStatus.failed,
          started_at := some { val := n1, aware := true },
          completed_at := some { val := n2, aware := true },
          error := some msg } := by
  rw [worker_step_cons s n1 n2 q rest hq, execute_task_err_eq _ n1 n2 msg hf]
  exact ⟨rfl, rfl⟩

/-- A manager holding one PENDING task whose work raises `"disk full"`. -/
def failingState : SimpleTaskManager :=
  { max_workers := 5,
    heap := [{ id := "boom_2", name := "boom", func := .err "disk full",
               status := .pending, created_at := { val := 2, aware := true },
               started_at := none, completed_at := none, result := none, error := none }],
    tasks := [("boom_2", 0)], queue := [0], running := true }

/-- Witness for `failed_work_captured` at `failingState`. -/
theorem failed_work_captured_witness :
    failingState.queue = [0] ∧
    (heapGet failingState 0).func = WorkResult.err "disk full" ∧
    (worker_step failingState 3 4).queue = [] ∧
    (worker_step failingState 3 4).heap = failingState.heap.set 0
      { (heapGet failingState 0) with
          status := TaskStatus.failed,
          started_at := some { val := 3, aware := true },
          completed_at := some { val := 4, aware := true },
          error := some "disk full" } :=
  ⟨rfl, rfl, (failed_work_captured failingState 3 4 0 [] "disk full" rfl rfl).1,
   (failed_work_captured failingState 3 4 0 [] "disk full" rfl rfl).2⟩

/-- Claim C8: in every state reachable by submit / worker-execution /
cleanup operations from the initial manager, every heap record satisfies:
`result` is present only when the status is COMPLETED and `error` only when
it is FAILED; and once a record's status is terminal, no later operation
sequence ever mutates that record again. -/
theorem record_invariants (ops : List Op) :
    (∀ (r : Nat) (t : Task), (runOps initState ops).heap[r]? = some t →
      (t.status ≠ TaskStatus.completed → t.result = none) ∧
      (t.status ≠ TaskStatus.failed → t.error = none)) ∧
    (∀ (more : List Op) (r : Nat) (t : Task),
      (runOps initState ops).heap[r]? = some t → isTerminal t.status = true →
      (runOps (runOps initState ops) more).heap[r]? = some t) := by
  have hWF := wf_runOps initState wf_init ops
  refine ⟨?_, ?_⟩
  · intro r t h
    obtain ⟨hres, herr, _, _⟩ := hWF.heapOk r t h
    exact ⟨hres, herr⟩
  · intro more r t h ht
    exact terminal_preserved_runOps _ hWF more r t h ht

/-- The operation sequence: submit `"a"` at t = 5 ms, then one worker
execution step. -/
def opsA : List Op := [Op.submit "a" (WorkResult.ok PyValue.pyNone) 5, Op.worker 6 7]

/-- The COMPLETED record produced by `opsA`. -/
def taskA : Task :=
  { id := "a_5", name := "a", func := WorkResult.ok PyValue.pyNone,
    status := TaskStatus.completed, created_at := { val := 5, aware := true },
    started_at := some { val := 6, aware := true },
    completed_at := some { val := 7, aware := true },
    result := some PyValue.pyNone, error := none }

/-- Witness for `record_invariants`: the record completed by `opsA` is
terminal and survives a further submission unchanged. -/
theorem record_invariants_witness :
    (runOps initState opsA).heap[0]? = some taskA ∧
    isTerminal taskA.status = true ∧
    (runOps (runOps initState opsA) [Op.submit "b" (WorkResult.err "x") 9]).heap[0]?
      = some taskA :=
  ⟨rfl, rfl,
   (record_invariants opsA).2 [Op.submit "b" (WorkResult.err "x") 9] 0 taskA rfl rfl⟩

/-- Claim C9: `submit_task` stores the new PENDING record in the record
table and enqueues its reference, so `get_task_status` right after a
submission returns the record (never `none`); the id stays present in the
table under every later operation sequence (`cleanup_old_tasks` never
succeeds in removing it); and in every reachable state the task at the
queue's head — the next one a worker can dequeue — has its id present in
the table. -/
theorem submit_stores_and_enqueues (ops : List Op) (name : String) (f : WorkResult)
    (nowMs : Nat) :
    get_task_status (applyOp (runOps initState ops) (Op.submit name f nowMs))
        (submit_task (runOps initState ops) nowMs name f).1
      = some (newTask name nowMs f) ∧
    (∀ more : List Op,
      (dictGet (runOps (applyOp (runOps initState ops) (Op.submit name f nowMs)) more).tasks
        (submit_task (runOps initState ops) nowMs name f).1).isSome = true) ∧
    (∀ (more : List Op) (r : Nat) (t : Task),
      (runOps (applyOp (runOps initState ops) (Op.submit name f nowMs)) more).queue.head?
        = some r →
      (runOps (applyOp (runOps initState ops) (Op.submit name f nowMs)) more).heap[r]?
        = some t →
      (dictGet (runOps (applyOp (runOps initState ops) (Op.submit name f nowMs)) more).tasks
        t.id).isSome = true) := by
  have hWF : WF (runOps initState ops) := wf_runOps initState wf_init ops
  have hWF2 : WF (applyOp (runOps initState ops) (Op.submit name f nowMs)) :=
    wf_applyOp _ hWF _
  refine ⟨get_after_submit _ nowMs name f, ?_, ?_⟩
  · intro more
    refine tasks_isSome_runOps _ hWF2 more _ ?_
    show (dictGet ((submit_task (runOps initState ops) nowMs name f).2).tasks
        (submit_task (runOps initState ops) nowMs name f).1).isSome = true
    simp only [submit_task]
    rw [dictGet_set_self]
    rfl
  · intro more r t hh hheap
    have hWF3 : WF (runOps (applyOp (runOps initState ops) (Op.submit name f nowMs)) more) :=
      wf_runOps _ hWF2 more
    exact hWF3.queueIdOk r t (List.mem_of_mem_head? hh) hheap

/-- Witness for `submit_stores_and_enqueues`: one submission into the fresh
manager; the queued task's id is present in the table. -/
theorem submit_stores_and_enqueues_witness :
    (runOps (applyOp (runOps initState []) (Op.submit "a" (WorkResult.ok PyValue.pyNone) 5))
        []).queue.head? = some 0 ∧
    (runOps (applyOp (runOps initState []) (Op.submit "a" (WorkResult.ok PyValue.pyNone) 5))
        []).heap[0]? = some (newTask "a" 5 (WorkResult.ok PyValue.pyNone)) ∧
    (dictGet (runOps (applyOp (runOps initState [])
          (Op.submit "a" (WorkResult.ok PyValue.pyNone) 5)) []).tasks
        (newTask "a" 5 (WorkResult.ok PyValue.pyNone)).id).isSome = true :=
  ⟨rfl, rfl,
   (submit_stores_and_enqueues [] "a" (WorkResult.ok PyValue.pyNone) 5).2.2 [] 0
     (newTask "a" 5 (WorkResult.ok PyValue.pyNone)) rfl rfl⟩

/-- Claim C10: a record whose status is CANCELLED and whose `completed_at`
is unset is never removed by `cleanup_old_tasks`, for any cutoff: its own
removal condition evaluates to false (or the whole call raises before
deleting anything), so the record's table entry and the heap survive. -/
theorem cancelled_never_removed (s : SimpleTaskManager) (hours nowMs : Nat) (id : String)
    (r : Nat) (hnd : (s.tasks.map Prod.fst).Nodup)
    (h1 : dictGet s.tasks id = some r)
    (h2 : (heapGet s r).status = TaskStatus.cancelled)
    (h3 : (heapGet s r).completed_at = none) :
    dictGet (applyOp s (Op.cleanup hours nowMs)).tasks id = some r ∧
    (applyOp s (Op.cleanup hours nowMs)).heap = s.heap := by
  cases hc : cleanup_old_tasks s nowMs hours with
  | error e =>
      constructor
      · show dictGet (applyOp s (Op.cleanup hours nowMs)).tasks id = some r
        simp [applyOp, hc, h1]
      · simp [applyOp, hc]
  | ok s' =>
      have hcc := hc
      simp only [cleanup_old_tasks] at hcc
      cases hrem : computeToRemove s s.tasks
          { val := nowMs - hours * 3600000, aware := false } with
      | error e =>
          rw [hrem] at hcc
          exact Except.noConfusion hcc
      | ok rem =>
          rw [hrem] at hcc
          injection hcc with hs'
          have hnotin : id ∉ rem := by
            intro hmem
            obtain ⟨r', hmem', hsr⟩ := computeToRemove_ok_mem s s.tasks _ rem id hrem hmem
            have hre : r' = r :=
              dict_nodup_unique s.tasks id r' r hnd hmem' (dictGet_mem _ _ _ h1)
            rw [hre] at hsr
            exact shouldRemove_cancelled (heapGet s r) _ h2 h3 hsr
          constructor
          · show dictGet (applyOp s (Op.cleanup hours nowMs)).tasks id = some r
            simp only [applyOp, hc, ← hs']
            rw [dictGet_filter_not_removed s.tasks rem id hnotin]
            exact h1
          · show (applyOp s (Op.cleanup hours nowMs)).heap = s.heap
            simp only [applyOp, hc, ← hs']

/-- A manager whose only record is caller-cancelled and never executed. -/
def cancelledOnlyState : SimpleTaskManager :=
  { max_workers := 5,
    heap := [{ id := "c_1", name := "c", func := .ok .pyNone, status := .cancelled,
               created_at := { val := 1, aware := true }, started_at := none,
               completed_at := none, result := none, error := none }],
    tasks := [("c_1", 0)], queue := [], running := true }

/-- Witness for `cancelled_never_removed` at `cancelledOnlyState` with a
far-future cutoff. -/
theorem cancelled_never_removed_witness :
    (cancelledOnlyState.tasks.map Prod.fst).Nodup ∧
    dictGet cancelledOnlyState.tasks "c_1" = some 0 ∧
    (heapGet cancelledOnlyState 0).status = TaskStatus.cancelled ∧
    (heapGet cancelledOnlyState 0).completed_at = none ∧
    dictGet (applyOp cancelledOnlyState (Op.cleanup 0 999999999)).tasks "c_1" = some 0 :=
  ⟨by decide, rfl, rfl, rfl,
   (cancelled_never_removed cancelledOnlyState 0 999999999 "c_1" 0 (by decide) rfl rfl rfl).1⟩

end SpendyWise
